import Mathlib

/-!
Verification development for the AutoDoc pipeline.

This file gives a shallow embedding of the core of the AutoDoc repository:

* `AutoDoc/parser.py` — `CodeUnit`, `CodeParser._parse_file`, `CodeParser.parse`,
  `CodeParser._extract_function`, `CodeParser._extract_class`;
* `AutoDoc/ai.py` — `AIDocGenerator._get_cache_key`, `_get_cached_doc`,
  `_save_to_cache`, `_generate_doc_for_unit`, `generate_docs`;
* `AutoDoc/renderer.py` — `DocumentationRenderer._group_docs`.

External effects are made explicit: reading a file becomes an
`Except String String` input (error = the propagating IO exception message),
the Python `ast` parser becomes an oracle argument `String → Option PyModule`
(`none` = a parse failure, which the source catches and turns into zero units),
the LLM chains become an explicit `Backend` record of fallible functions, and
the on-disk cache directory becomes an association list threaded through the
orchestrator.  `ThreadPoolExecutor.map` keeps one result per input in input
order, so `generate_docs` is modelled as the corresponding (sequentialised)
map with the cache state threaded through.
-/

namespace AutoDoc

/-- Number/list of lines of a piece of text, as Python `str.splitlines` computes
them for LF-terminated text: a final line without a trailing newline still
counts, a trailing newline does not open a new line, and the empty string has
zero lines. -/
def splitlinesChars : List Char → List (List Char)
  | [] => []
  | c :: rest =>
    if c = '\n' then [] :: splitlinesChars rest
    else
      match splitlinesChars rest with
      | [] => [[c]]
      | l :: ls => (c :: l) :: ls

/-- Python `source.splitlines()` (for LF line terminators). -/
def splitlines (s : String) : List String :=
  (splitlinesChars s.data).map (fun cs => String.mk cs)

/-- Python `"\n".join(source.splitlines()[line_start-1:line_end])`: the verbatim
slice of `source` from line `line_start` to line `line_end`, 1-indexed and
inclusive, as `_extract_function` / `_extract_class` compute it. -/
def slice_lines (source : String) (line_start line_end : Nat) : String :=
  String.intercalate "\n"
    (((splitlines source).drop (line_start - 1)).take (line_end - (line_start - 1)))

/-- Python `str.capitalize()`: first character upper-cased, the rest
lower-cased (as used for the by-kind group keys in `_group_docs`). -/
def capitalizeStr (s : String) : String :=
  match s.data with
  | [] => ""
  | c :: rest => String.mk (c.toUpper :: rest.map Char.toLower)

/-- Lexicographic comparison of character lists by code point — the order
Python uses to compare strings in `list.sort` / `sorted`. -/
def lexLe : List Char → List Char → Bool
  | [], _ => true
  | _ :: _, [] => false
  | a :: as, b :: bs =>
    if a.toNat < b.toNat then true
    else if b.toNat < a.toNat then false
    else lexLe as bs

/-- Python string `<=` (code-point lexicographic). -/
def strLe (a b : String) : Bool := lexLe a.data b.data

/-- The `CodeUnit` dataclass of `AutoDoc/parser.py`. -/
structure CodeUnit where
  type : String
  name : String
  source : String
  docstring : Option String
  file_path : String
  module_path : String
  line_start : Nat
  line_end : Nat
  parent : Option String := none
deriving DecidableEq, Repr

/-- A node of the parsed Python syntax tree, restricted to the shape
`CodeParser._parse_file` inspects: `ast.FunctionDef` and `ast.ClassDef` nodes
(with name, 1-indexed `lineno`, optional `end_lineno` — the source guards it
with `hasattr` — and the value `ast.get_docstring` reports), and `other` for
every other statement kind, which the source ignores.  Function bodies are not
carried because the extractor never looks inside them; class bodies are, since
methods are read off the class body. -/
inductive PyNode where
  | functionDef (name : String) (lineno : Nat) (endLineno : Option Nat) (docstring : Option String)
  | classDef (name : String) (lineno : Nat) (endLineno : Option Nat) (docstring : Option String)
      (body : List PyNode)
  | other

/-- Result of a successful `ast.parse`: the top-level statement list and the
module docstring `ast.get_docstring(tree)` reports. -/
structure PyModule where
  body : List PyNode
  docstring : Option String

/-- `CodeParser._extract_function` (also used for methods, with `parent` set):
`line_end` is `end_lineno` when present, else `lineno`, and the source text is
the inclusive line slice. -/
def extract_function (nm : String) (lineno : Nat) (endLineno : Option Nat)
    (ds : Option String) (source file_path module_path : String)
    (parent : Option String) : CodeUnit :=
  let line_start := lineno
  let line_end := endLineno.getD lineno
  { type := "function", name := nm,
    source := slice_lines source line_start line_end,
    docstring := ds, file_path := file_path, module_path := module_path,
    line_start := line_start, line_end := line_end, parent := parent }

/-- `CodeParser._extract_class`. -/
def extract_class (nm : String) (lineno : Nat) (endLineno : Option Nat)
    (ds : Option String) (source file_path module_path : String) : CodeUnit :=
  let line_start := lineno
  let line_end := endLineno.getD lineno
  { type := "class", name := nm,
    source := slice_lines source line_start line_end,
    docstring := ds, file_path := file_path, module_path := module_path,
    line_start := line_start, line_end := line_end, parent := none }

/-- The method loop of `_parse_file`: for each `ast.FunctionDef` directly in a
class body (in order), `_extract_function` with the class as parent and the
type re-tagged to "method". -/
def extract_methods (file_path module_path source cls : String) :
    List PyNode → List CodeUnit
  | [] => []
  | PyNode.functionDef nm l e ds :: rest =>
      { extract_function nm l e ds source file_path module_path (some cls)
          with type := "method" } :: extract_methods file_path module_path source cls rest
  | _ :: rest => extract_methods file_path module_path source cls rest

/-- The top-level loop of `_parse_file` over `ast.iter_child_nodes(tree)`:
functions yield one unit, classes yield the class unit followed by its method
units, everything else is ignored. -/
def extract_body (file_path module_path source : String) : List PyNode → List CodeUnit
  | [] => []
  | PyNode.functionDef nm l e ds :: rest =>
      extract_function nm l e ds source file_path module_path none ::
        extract_body file_path module_path source rest
  | PyNode.classDef nm l e ds body :: rest =>
      extract_class nm l e ds source file_path module_path ::
        (extract_methods file_path module_path source nm body ++
          extract_body file_path module_path source rest)
  | PyNode.other :: rest => extract_body file_path module_path source rest

/-- The successful-parse path of `_parse_file`: the module unit (whole file,
`line_start = 1`, `line_end = len(source.splitlines())`) followed by the
top-level extraction in source order. -/
def extract_units (file_path module_path source : String) (tree : PyModule) :
    List CodeUnit :=
  { type := "module", name := module_path, source := source,
    docstring := tree.docstring, file_path := file_path,
    module_path := module_path, line_start := 1,
    line_end := (splitlines source).length, parent := none } ::
    extract_body file_path module_path source tree.body

/-- `CodeParser._parse_file`.  The file read (`open(...).read()`) happens
before the `try`, so a read error propagates (`Except.error`); a parse failure
is caught and yields zero units. -/
def parse_file (file_path module_path : String) (readResult : Except String String)
    (astParse : String → Option PyModule) : Except String (List CodeUnit) :=
  match readResult with
  | Except.error e => Except.error e
  | Except.ok source =>
    match astParse source with
    | none => Except.ok []
    | some tree => Except.ok (extract_units file_path module_path source tree)

/-- The file loop of `CodeParser.parse`: the walk is given as the list of
`(file_path, module_path, read outcome)` triples for the discovered `.py`
files; `_parse_file` results are concatenated, and — since the loop has no
exception handler — a read error aborts the whole walk. -/
def parse (astParse : String → Option PyModule) :
    List (String × String × Except String String) → Except String (List CodeUnit)
  | [] => Except.ok []
  | (fp, mp, rd) :: rest =>
    match parse_file fp mp rd astParse with
    | Except.error e => Except.error e
    | Except.ok units =>
      match parse astParse rest with
      | Except.error e => Except.error e
      | Except.ok restUnits => Except.ok (units ++ restUnits)

/-- Number of `ast.FunctionDef` nodes directly in a statement list (top-level
standalone functions of a module, or methods of one class body). -/
def countFunctionDefs : List PyNode → Nat
  | [] => 0
  | PyNode.functionDef _ _ _ _ :: rest => countFunctionDefs rest + 1
  | _ :: rest => countFunctionDefs rest

/-- Number of `ast.ClassDef` nodes directly in a statement list. -/
def countClassDefs : List PyNode → Nat
  | [] => 0
  | PyNode.classDef _ _ _ _ _ :: rest => countClassDefs rest + 1
  | _ :: rest => countClassDefs rest

/-- Total number of methods: `ast.FunctionDef` children summed over the
top-level `ast.ClassDef` nodes. -/
def totalMethods : List PyNode → Nat
  | [] => 0
  | PyNode.classDef _ _ _ _ body :: rest => countFunctionDefs body + totalMethods rest
  | _ :: rest => totalMethods rest

/-- `lineno ≤ end_lineno` when `end_lineno` is present — the span shape
CPython's parser guarantees for every node it produces. -/
def spanLeB (lineno : Nat) (endLineno : Option Nat) : Bool :=
  match endLineno with
  | none => true
  | some e => lineno ≤ e

/-- Parser-valid spans for a top-level node and (for a class) for its direct
function children — exactly the nodes whose spans the extractor reads. -/
def nodeSpanOk : PyNode → Bool
  | PyNode.functionDef _ l e _ => spanLeB l e
  | PyNode.classDef _ l e _ body =>
    spanLeB l e && body.all (fun c =>
      match c with
      | PyNode.functionDef _ l2 e2 _ => spanLeB l2 e2
      | _ => true)
  | PyNode.other => true

/-! ### MD5 (`hashlib.md5(...).hexdigest()`), RFC 1321, over UTF-8 bytes.
Machine words are `Nat` reduced mod `2 ^ 32` at each step. -/

/-- UTF-8 encoding of one character (byte values as `Nat`). -/
def utf8EncodeChar (c : Char) : List Nat :=
  let n := c.toNat
  if n < 128 then [n]
  else if n < 2048 then [192 ||| (n >>> 6), 128 ||| (n &&& 63)]
  else if n < 65536 then
    [224 ||| (n >>> 12), 128 ||| ((n >>> 6) &&& 63), 128 ||| (n &&& 63)]
  else
    [240 ||| (n >>> 18), 128 ||| ((n >>> 12) &&& 63),
      128 ||| ((n >>> 6) &&& 63), 128 ||| (n &&& 63)]

/-- UTF-8 byte sequence of a string (what `str.encode()` feeds to `md5`). -/
def utf8Bytes (s : String) : List Nat :=
  s.data.foldr (fun c acc => utf8EncodeChar c ++ acc) []

/-- 32-bit left rotation. -/
def rotl32 (x n : Nat) : Nat :=
  ((x <<< n) ||| (x >>> (32 - n))) % 4294967296

/-- The 64 MD5 sine-derived round constants. -/
def md5K : List Nat :=
  [0xd76aa478, 0xe8c7b756, 0x242070db, 0xc1bdceee,
   0xf57c0faf, 0x4787c62a, 0xa8304613, 0xfd469501,
   0x698098d8, 0x8b44f7af, 0xffff5bb1, 0x895cd7be,
   0x6b901122, 0xfd987193, 0xa679438e, 0x49b40821,
   0xf61e2562, 0xc040b340, 0x265e5a51, 0xe9b6c7aa,
   0xd62f105d, 0x02441453, 0xd8a1e681, 0xe7d3fbc8,
   0x21e1cde6, 0xc33707d6, 0xf4d50d87, 0x455a14ed,
   0xa9e3e905, 0xfcefa3f8, 0x676f02d9, 0x8d2a4c8a,
   0xfffa3942, 0x8771f681, 0x6d9d6122, 0xfde5380c,
   0xa4beea44, 0x4bdecfa9, 0xf6bb4b60, 0xbebfbc70,
   0x289b7ec6, 0xeaa127fa, 0xd4ef3085, 0x04881d05,
   0xd9d4d039, 0xe6db99e5, 0x1fa27cf8, 0xc4ac5665,
   0xf4292244, 0x432aff97, 0xab9423a7, 0xfc93a039,
   0x655b59c3, 0x8f0ccc92, 0xffeff47d, 0x85845dd1,
   0x6fa87e4f, 0xfe2ce6e0, 0xa3014314, 0x4e0811a1,
   0xf7537e82, 0xbd3af235, 0x2ad7d2bb, 0xeb86d391]

/-- The 64 MD5 per-round shift amounts. -/
def md5S : List Nat :=
  [7, 12, 17, 22, 7, 12, 17, 22, 7, 12, 17, 22, 7, 12, 17, 22,
   5, 9, 14, 20, 5, 9, 14, 20, 5, 9, 14, 20, 5, 9, 14, 20,
   4, 11, 16, 23, 4, 11, 16, 23, 4, 11, 16, 23, 4, 11, 16, 23,
   6, 10, 15, 21, 6, 10, 15, 21, 6, 10, 15, 21, 6, 10, 15, 21]

/-- One MD5 round applied to state `(a, b, c, d)` with message schedule `m`. -/
def md5step (m : List Nat) (st : Nat × Nat × Nat × Nat) (i : Nat) :
    Nat × Nat × Nat × Nat :=
  let a := st.1
  let b := st.2.1
  let c := st.2.2.1
  let d := st.2.2.2
  let mask := 4294967295
  let f :=
    if i < 16 then (b &&& c) ||| ((b ^^^ mask) &&& d)
    else if i < 32 then (d &&& b) ||| ((d ^^^ mask) &&& c)
    else if i < 48 then b ^^^ c ^^^ d
    else c ^^^ (b ||| (d ^^^ mask))
  let g :=
    if i < 16 then i
    else if i < 32 then (5 * i + 1) % 16
    else if i < 48 then (3 * i + 5) % 16
    else (7 * i) % 16
  let tmp := (f + a + md5K.getD i 0 + m.getD g 0) % 4294967296
  (d, (b + rotl32 tmp (md5S.getD i 0)) % 4294967296, b, c)

/-- Little-endian 32-bit word read at byte offset `j` of a chunk. -/
def word32At (bytes : List Nat) (j : Nat) : Nat :=
  bytes.getD j 0 + 256 * bytes.getD (j + 1) 0 + 65536 * bytes.getD (j + 2) 0 +
    16777216 * bytes.getD (j + 3) 0

/-- Process one 64-byte chunk. -/
def md5chunk (st : Nat × Nat × Nat × Nat) (chunk : List Nat) :
    Nat × Nat × Nat × Nat :=
  let m := (List.range 16).map (fun j => word32At chunk (4 * j))
  let fin := (List.range 64).foldl (md5step m) st
  ((st.1 + fin.1) % 4294967296, (st.2.1 + fin.2.1) % 4294967296,
   (st.2.2.1 + fin.2.2.1) % 4294967296, (st.2.2.2 + fin.2.2.2) % 4294967296)

/-- `k` little-endian bytes of `n`. -/
def natLEBytes : Nat → Nat → List Nat
  | 0, _ => []
  | k + 1, n => n % 256 :: natLEBytes k (n / 256)

/-- MD5 padding: a 0x80 byte, zeros to 56 mod 64, then the 64-bit
little-endian original bit length. -/
def md5pad (msg : List Nat) : List Nat :=
  msg ++ [128] ++ List.replicate ((119 - msg.length % 64) % 64) 0 ++
    natLEBytes 8 ((8 * msg.length) % 18446744073709551616)

/-- Split a byte list into 64-byte chunks. -/
def chunksOf64 : List Nat → List (List Nat)
  | [] => []
  | x :: rest => ((x :: rest).take 64) :: chunksOf64 ((x :: rest).drop 64)
termination_by l => l.length
decreasing_by
  simp only [List.drop_succ_cons, List.length_cons, List.length_drop]
  omega

/-- Lower-case hexadecimal digit. -/
def hexDigit (n : Nat) : Char :=
  if n < 10 then Char.ofNat (48 + n) else Char.ofNat (87 + n)

/-- Two-digit lower-case hex of a byte. -/
def byteHex (b : Nat) : String :=
  String.mk [hexDigit (b / 16), hexDigit (b % 16)]

/-- Hex of a 32-bit word, least significant byte first (MD5 digest order). -/
def wordHex (w : Nat) : String :=
  byteHex (w % 256) ++ byteHex (w / 256 % 256) ++ byteHex (w / 65536 % 256) ++
    byteHex (w / 16777216 % 256)

/-- `hashlib.md5(s.encode()).hexdigest()`. -/
def md5hex (s : String) : String :=
  let st := (chunksOf64 (md5pad (utf8Bytes s))).foldl md5chunk
    (1732584193, 4023233417, 2562383102, 271733878)
  wordHex st.1 ++ wordHex st.2.1 ++ wordHex st.2.2.1 ++ wordHex st.2.2.2

/-! ### The generation orchestrator (`AutoDoc/ai.py`). -/

/-- Python truthiness of a string: nonempty. -/
def truthyStr (s : String) : Bool := s != ""

/-- Python truthiness of an optional string: present and nonempty. -/
def truthyOptStr : Option String → Bool
  | none => false
  | some s => truthyStr s

/-- Python `x or default` for an optional string (used for
`code_unit.docstring or "No docstring provided"`). -/
def pyOrStr (o : Option String) (default : String) : String :=
  match o with
  | none => default
  | some s => if truthyStr s then s else default

/-- The cache directory contents: one entry per fingerprint file
`{key}.json`, holding the stored documentation text. -/
def CacheState := List (String × String)

/-- Writing (or overwriting) one cache file. -/
def cacheStore (c : CacheState) (k v : String) : CacheState :=
  (k, v) :: (List.filter (fun p => p.1 != k) c)

/-- The pre-hash string `f"{code_unit.type}:{code_unit.name}:{code_unit.source}"`
built by `_get_cache_key`. -/
def hash_input (u : CodeUnit) : String :=
  u.type ++ ":" ++ u.name ++ ":" ++ u.source

/-- `AIDocGenerator._get_cache_key`: `None` when caching is disabled, else the
MD5 hexdigest of the pre-hash string. -/
def get_cache_key (cache_dir : Option String) (u : CodeUnit) : Option String :=
  if truthyOptStr cache_dir then some (md5hex (hash_input u)) else none

/-- `AIDocGenerator._get_cached_doc`: `None` when caching is disabled or the
key is falsy, else the stored text when the cache file exists.  (A corrupt
entry, which the source also maps to `None`, is modelled as an absent one.) -/
def get_cached_doc (cache_dir : Option String) (c : CacheState)
    (cache_key : Option String) : Option String :=
  if !truthyOptStr cache_dir || !truthyOptStr cache_key then none
  else
    match cache_key with
    | none => none
    | some k => List.lookup k c

/-- `AIDocGenerator._save_to_cache`. -/
def save_to_cache (cache_dir : Option String) (c : CacheState)
    (cache_key : Option String) (documentation : String) : CacheState :=
  if !truthyOptStr cache_dir || !truthyOptStr cache_key then c
  else
    match cache_key with
    | none => c
    | some k => cacheStore c k documentation

/-- The three LLM chains of `AIDocGenerator`, as black-box fallible functions:
`function_chain` and `class_chain` take `(source, name)`, `module_chain` takes
`(name, docstring)`.  `Except.error e` models a raised exception with message
`str(e)`. -/
structure Backend where
  function_chain : String → String → Except String String
  class_chain : String → String → Except String String
  module_chain : String → String → Except String String

/-- The kind dispatch inside the `try` of `_generate_doc_for_unit`: which chain
is invoked with which arguments, or the fixed fallback text for an unknown
unit type (which cannot fail). -/
def outcomeOf (b : Backend) (u : CodeUnit) : Except String String :=
  if u.type = "function" || u.type = "method" then b.function_chain u.source u.name
  else if u.type = "class" then b.class_chain u.source u.name
  else if u.type = "module" then
    b.module_chain u.name (pyOrStr u.docstring "No docstring provided")
  else Except.ok ("# " ++ u.name ++ "\n\nNo documentation available for this type of code unit.")

/-- The per-unit result dictionary built by `_generate_doc_for_unit`: the
`error` key is present exactly on the failure path. -/
structure GenerationResult where
  unit : CodeUnit
  documentation : String
  from_cache : Bool
  error : Option String := none
deriving DecidableEq, Repr

/-- The spec's `GenerationResult.status` read off the result dictionary:
`cached` iff `from_cache`, else `failed` iff the `error` key is present,
else `ok`. -/
def statusOf (r : GenerationResult) : String :=
  if r.from_cache then "cached" else if r.error.isSome then "failed" else "ok"

/-- The error detail carried by a backend outcome. -/
def errPart : Except String String → Option String
  | Except.ok _ => none
  | Except.error e => some e

/-- `AIDocGenerator._generate_doc_for_unit`, with the cache directory state
threaded explicitly: cache probe (a hit requires a truthy, i.e. nonempty,
cached text), then chain dispatch; on success the text is saved to the cache,
on an exception a failure dictionary is returned and nothing escapes. -/
def generate_doc_for_unit (cache_dir : Option String) (b : Backend)
    (c : CacheState) (u : CodeUnit) : GenerationResult × CacheState :=
  let cache_key := get_cache_key cache_dir u
  let cached_doc := get_cached_doc cache_dir c cache_key
  if truthyOptStr cached_doc then
    ({ unit := u, documentation := cached_doc.getD "", from_cache := true,
       error := none }, c)
  else
    match outcomeOf b u with
    | Except.ok doc =>
      let cAfter := if truthyOptStr cache_key then
          save_to_cache cache_dir c cache_key doc
        else c
      ({ unit := u, documentation := doc, from_cache := false, error := none }, cAfter)
    | Except.error e =>
      ({ unit := u,
         documentation := "# " ++ u.name ++ "\n\nError generating documentation: " ++ e,
         from_cache := false, error := some e }, c)

/-- `AIDocGenerator.generate_docs`: `executor.map` returns exactly one result
per input unit, in input order; the shared cache directory is threaded
through (the pool's interleavings affect only which cache entries each unit
observes, not the shape or order of the result list). -/
def generate_docs (cache_dir : Option String) (b : Backend) (c : CacheState) :
    List CodeUnit → List GenerationResult × CacheState
  | [] => ([], c)
  | u :: rest =>
    let r := generate_doc_for_unit cache_dir b c u
    let rs := generate_docs cache_dir b r.2 rest
    (r.1 :: rs.1, rs.2)

/-! ### The aggregator (`DocumentationRenderer._group_docs`).

Python's `list.sort` / `sorted` are stable sorts; a stable sort for a fixed
total comparator is a unique function of its input, so it is modelled by a
stable insertion sort (`isort`). -/

/-- Insert `a` in front of the first element it is `le`-below-or-equal.
Inserting before the first equal element is exactly what stability demands
when elements are inserted right-to-left. -/
def insertSorted (le : α → α → Bool) (a : α) : List α → List α
  | [] => [a]
  | b :: rest => if le a b then a :: b :: rest else b :: insertSorted le a rest

/-- Stable sort by the comparator `le` (the semantics of Python's stable
`list.sort(key=...)` / `sorted(...)`). -/
def isort (le : α → α → Bool) : List α → List α
  | [] => []
  | a :: rest => insertSorted le a (isort le rest)

/-- The group key `_group_docs` computes for a unit: capitalized kind under
`group_by == "type"`, the module path under `group_by == "module"`, and the
single key "All" otherwise (flat). -/
def group_key (group_by : String) (u : CodeUnit) : String :=
  if group_by = "type" then capitalizeStr u.type
  else if group_by = "module" then u.module_path
  else "All"

/-- The `continue` guard of `_group_docs`: module units are skipped when
grouping by module. -/
def skipDoc (group_by : String) (u : CodeUnit) : Bool :=
  group_by == "module" && u.type == "module"

/-- `grouped[group_key].append(doc)` on an insertion-ordered association list
(the semantics of `defaultdict(list)` under Python's ordered dicts). -/
def insertGrouped (acc : List (String × List GenerationResult)) (k : String)
    (d : GenerationResult) : List (String × List GenerationResult) :=
  match acc with
  | [] => [(k, [d])]
  | (k0, ds) :: rest =>
    if k0 = k then (k0, ds ++ [d]) :: rest else (k0, ds) :: insertGrouped rest k d

/-- The grouping loop of `_group_docs` (the `file_path` / `page_path`
bookkeeping it also performs does not affect the grouping and is omitted). -/
def groupFold (group_by : String) (docs : List GenerationResult) :
    List (String × List GenerationResult) :=
  docs.foldl
    (fun acc d =>
      if skipDoc group_by d.unit then acc
      else insertGrouped acc (group_key group_by d.unit) d) []

/-- The within-group comparator: `key=lambda d: d["unit"].name`. -/
def nameLe (a b : GenerationResult) : Bool := strLe a.unit.name b.unit.name

/-- The group-order comparator of `dict(sorted(grouped.items()))`; keys in a
dict are distinct, so tuple comparison never reaches the values. -/
def keyLe (p q : String × List GenerationResult) : Bool := strLe p.1 q.1

/-- `DocumentationRenderer._group_docs`: group, sort each group's entries by
unit name, then sort the groups by key. -/
def group_docs (group_by : String) (docs : List GenerationResult) :
    List (String × List GenerationResult) :=
  isort keyLe
    ((groupFold group_by docs).map (fun p => (p.1, isort nameLe p.2)))

/-- First-match association lookup on the grouped structure (the contents a
key holds). -/
def findGroup : List (String × List GenerationResult) → String → List GenerationResult
  | [], _ => []
  | (k0, ds) :: rest, k => if k0 = k then ds else findGroup rest k

/-! ### Concrete fixtures used in example instantiations. -/

/-- A concrete code unit with the given kind, name and source text. -/
def mku (ty nm src : String) : CodeUnit :=
  { type := ty, name := nm, source := src, docstring := none, file_path := "f.py",
    module_path := "m", line_start := 1, line_end := 1, parent := none }

/-- A backend whose chains always return `txt`. -/
def bOk (txt : String) : Backend :=
  { function_chain := fun _ _ => Except.ok txt,
    class_chain := fun _ _ => Except.ok txt,
    module_chain := fun _ _ => Except.ok txt }

/-- A backend whose function chain raises exactly for the unit named `bad`. -/
def bFailOn (bad : String) : Backend :=
  { function_chain := fun _ nm => if nm = bad then Except.error "boom" else Except.ok "docs",
    class_chain := fun _ _ => Except.ok "docs",
    module_chain := fun _ _ => Except.ok "docs" }

/-- A concrete generation-result dictionary for a unit. -/
def gdoc (u : CodeUnit) : GenerationResult :=
  { unit := u, documentation := "d", from_cache := false, error := none }

/-- A concrete parser oracle: the empty file parses to an empty module, any
other content is a parse failure. -/
def astPW : String → Option PyModule :=
  fun s => if s = "" then some { body := [], docstring := none } else none

/-- The parse tree of the spec's worked example: function `add` on lines 3-4,
class `Box` on lines 6-10 with method `get` on lines 8-9, module docstring
present. -/
def treeW : PyModule :=
  { body := [PyNode.functionDef "add" 3 (some 4) none,
             PyNode.classDef "Box" 6 (some 10) (some "box")
               [PyNode.functionDef "get" 8 (some 9) none]],
    docstring := some "doc" }

/-! ### General lemmas: strings, the comparator, stable sorting. -/

theorem string_data_inj {s t : String} (h : s.data = t.data) : s = t := by
  cases s
  cases t
  exact congrArg String.mk h

theorem lexLe_total : ∀ a b : List Char, lexLe a b = true ∨ lexLe b a = true
  | [], _ => Or.inl rfl
  | _ :: _, [] => Or.inr rfl
  | a :: as, b :: bs => by
    rcases Nat.lt_trichotomy a.toNat b.toNat with h | h | h
    · left; simp [lexLe, h]
    · have hab : ¬ a.toNat < b.toNat := by omega
      have hba : ¬ b.toNat < a.toNat := by omega
      rcases lexLe_total as bs with ih | ih
      · left; simp [lexLe, hab, hba, ih]
      · right; simp [lexLe, hab, hba, ih]
    · right; simp [lexLe, h]

theorem lexLe_trans :
    ∀ a b c : List Char, lexLe a b = true → lexLe b c = true → lexLe a c = true
  | [], _, _, _, _ => rfl
  | _ :: _, [], _, h1, _ => by simp [lexLe] at h1
  | _ :: _, _ :: _, [], _, h2 => by simp [lexLe] at h2
  | a :: as, b :: bs, c :: cs, h1, h2 => by
    simp only [lexLe] at h1 h2 ⊢
    split at h1
    next hab =>
      split at h2
      next hbc => simp [show a.toNat < c.toNat by omega]
      next hbc =>
        split at h2
        next hcb => exact absurd h2 (by simp)
        next hcb => simp [show a.toNat < c.toNat by omega]
    next hab =>
      split at h1
      next hba => exact absurd h1 (by simp)
      next hba =>
        split at h2
        next hbc => simp [show a.toNat < c.toNat by omega]
        next hbc =>
          split at h2
          next hcb => exact absurd h2 (by simp)
          next hcb =>
            have hac : ¬ a.toNat < c.toNat := by omega
            have hca : ¬ c.toNat < a.toNat := by omega
            simp only [hac, hca, if_false]
            exact lexLe_trans as bs cs h1 h2

theorem lexLe_antisymm :
    ∀ a b : List Char, lexLe a b = true → lexLe b a = true → a = b
  | [], [], _, _ => rfl
  | [], _ :: _, _, h2 => by simp [lexLe] at h2
  | _ :: _, [], h1, _ => by simp [lexLe] at h1
  | a :: as, b :: bs, h1, h2 => by
    simp only [lexLe] at h1 h2
    split at h1
    next hab =>
      rw [if_neg (by omega), if_pos hab] at h2
      exact absurd h2 (by simp)
    next hab =>
      split at h1
      next hba => exact absurd h1 (by simp)
      next hba =>
        rw [if_neg hba, if_neg hab] at h2
        have hn : a.toNat = b.toNat := by omega
        have he : a = b := Char.ext (UInt32.ext hn)
        have ht := lexLe_antisymm as bs h1 h2
        rw [he, ht]

theorem strLe_total (a b : String) : strLe a b = true ∨ strLe b a = true :=
  lexLe_total a.data b.data

theorem strLe_trans {a b c : String} (h1 : strLe a b = true)
    (h2 : strLe b c = true) : strLe a c = true :=
  lexLe_trans a.data b.data c.data h1 h2

theorem strLe_antisymm {a b : String} (h1 : strLe a b = true)
    (h2 : strLe b a = true) : a = b :=
  string_data_inj (lexLe_antisymm a.data b.data h1 h2)

theorem mem_insertSorted {le : α → α → Bool} {a x : α} :
    ∀ {l : List α}, x ∈ insertSorted le a l ↔ x = a ∨ x ∈ l
  | [] => by simp [insertSorted]
  | b :: rest => by
    simp only [insertSorted]
    split
    · simp
    · simp only [List.mem_cons, mem_insertSorted (l := rest)]
      tauto

theorem insertSorted_perm (le : α → α → Bool) (a : α) :
    ∀ l : List α, (insertSorted le a l).Perm (a :: l)
  | [] => List.Perm.refl _
  | b :: rest => by
    simp only [insertSorted]
    split
    · exact List.Perm.refl _
    · exact ((insertSorted_perm le a rest).cons b).trans (List.Perm.swap a b rest)

theorem isort_perm (le : α → α → Bool) : ∀ l : List α, (isort le l).Perm l
  | [] => List.Perm.refl _
  | a :: rest =>
    (insertSorted_perm le a (isort le rest)).trans ((isort_perm le rest).cons a)

theorem pairwise_insertSorted {le : α → α → Bool}
    (htot : ∀ x y, le x y = true ∨ le y x = true)
    (htrans : ∀ x y z, le x y = true → le y z = true → le x z = true) (a : α) :
    ∀ {l : List α}, l.Pairwise (fun x y => le x y = true) →
      (insertSorted le a l).Pairwise (fun x y => le x y = true)
  | [], _ => by simp [insertSorted]
  | b :: rest, hp => by
    rcases List.pairwise_cons.mp hp with ⟨hb, hrest⟩
    simp only [insertSorted]
    split
    next hab =>
      refine List.pairwise_cons.mpr ⟨?_, hp⟩
      intro x hx
      rcases List.mem_cons.mp hx with rfl | hx2
      · exact hab
      · exact htrans a b x hab (hb x hx2)
    next hab =>
      have hba : le b a = true := (htot a b).resolve_left hab
      refine List.pairwise_cons.mpr ⟨?_, pairwise_insertSorted htot htrans a hrest⟩
      intro x hx
      rcases mem_insertSorted.mp hx with rfl | hx2
      · exact hba
      · exact hb x hx2

theorem pairwise_isort {le : α → α → Bool}
    (htot : ∀ x y, le x y = true ∨ le y x = true)
    (htrans : ∀ x y z, le x y = true → le y z = true → le x z = true) :
    ∀ l : List α, (isort le l).Pairwise (fun x y => le x y = true)
  | [] => List.Pairwise.nil
  | a :: rest => pairwise_insertSorted htot htrans a (pairwise_isort htot htrans rest)

/-- Two permuted lists that are both sorted by a string key that is
duplicate-free are equal: a strictly sorted presentation is unique. -/
theorem eq_of_perm_of_sorted_keys {α : Type} (f : α → String) :
    ∀ l1 l2 : List α, l1.Perm l2 →
      l1.Pairwise (fun x y => strLe (f x) (f y) = true) →
      l2.Pairwise (fun x y => strLe (f x) (f y) = true) →
      (l1.map f).Nodup → l1 = l2
  | [], l2, hp, _, _, _ => hp.nil_eq
  | a :: t1, l2, hp, hs1, hs2, hnd => by
    cases l2 with
    | nil => exact absurd hp.symm.nil_eq (by simp)
    | cons b t2 =>
      have hab : a = b := by
        by_contra hne
        have ha2 : a ∈ b :: t2 := hp.mem_iff.mp (List.mem_cons_self a t1)
        have hb1 : b ∈ a :: t1 := hp.mem_iff.mpr (List.mem_cons_self b t2)
        have ha2b : a ∈ t2 := by
          rcases List.mem_cons.mp ha2 with h | h
          · exact absurd h hne
          · exact h
        have hb1a : b ∈ t1 := by
          rcases List.mem_cons.mp hb1 with h | h
          · exact absurd h.symm hne
          · exact h
        have h1 : strLe (f a) (f b) = true := (List.pairwise_cons.mp hs1).1 b hb1a
        have h2 : strLe (f b) (f a) = true := (List.pairwise_cons.mp hs2).1 a ha2b
        have hfe : f a = f b := strLe_antisymm h1 h2
        have hmem : f a ∈ t1.map f := hfe ▸ List.mem_map_of_mem f hb1a
        have hndc : f a ∉ t1.map f := by
          simp only [List.map_cons, List.nodup_cons] at hnd
          exact hnd.1
        exact hndc hmem
      subst hab
      have ht := eq_of_perm_of_sorted_keys f t1 t2 hp.cons_inv
        (List.pairwise_cons.mp hs1).2 (List.pairwise_cons.mp hs2).2
        (by simp only [List.map_cons, List.nodup_cons] at hnd; exact hnd.2)
      rw [ht]

/-! ### Lemmas about the digest, line counting, and the extractor. -/

theorem byteHex_length (b : Nat) : (byteHex b).length = 2 := rfl

theorem wordHex_length (w : Nat) : (wordHex w).length = 8 := by
  simp [wordHex, String.length_append, byteHex_length]

theorem md5hex_length (s : String) : (md5hex s).length = 32 := by
  simp [md5hex, String.length_append, wordHex_length]

theorem md5hex_ne_empty (s : String) : md5hex s ≠ "" := by
  intro h
  have := md5hex_length s
  rw [h] at this
  simp at this

theorem truthyStr_md5hex (s : String) : truthyStr (md5hex s) = true := by
  simp [truthyStr, bne_iff_ne, md5hex_ne_empty s]

theorem splitlinesChars_length_pos (c : Char) (cs : List Char) :
    0 < (splitlinesChars (c :: cs)).length := by
  simp only [splitlinesChars]
  split
  · simp
  · split <;> simp

theorem splitlines_length_pos {s : String} (h : s ≠ "") :
    0 < (splitlines s).length := by
  match hd : s.data with
  | [] => exact absurd (string_data_inj (s := s) (t := "") hd) h
  | c :: cs =>
    simp only [splitlines, List.length_map, hd]
    exact splitlinesChars_length_pos c cs

theorem extract_methods_length (fp mp source cls : String) :
    ∀ body : List PyNode,
      (extract_methods fp mp source cls body).length = countFunctionDefs body
  | [] => rfl
  | PyNode.functionDef _ _ _ _ :: rest => by
    simp [extract_methods, countFunctionDefs, extract_methods_length fp mp source cls rest]
  | PyNode.classDef _ _ _ _ _ :: rest => by
    simp [extract_methods, countFunctionDefs, extract_methods_length fp mp source cls rest]
  | PyNode.other :: rest => by
    simp [extract_methods, countFunctionDefs, extract_methods_length fp mp source cls rest]

theorem extract_body_length (fp mp source : String) :
    ∀ body : List PyNode,
      (extract_body fp mp source body).length =
        countClassDefs body + countFunctionDefs body + totalMethods body
  | [] => rfl
  | PyNode.functionDef _ _ _ _ :: rest => by
    simp only [extract_body, List.length_cons, countClassDefs, countFunctionDefs,
      totalMethods, extract_body_length fp mp source rest]
    omega
  | PyNode.classDef nm _ _ _ body :: rest => by
    simp only [extract_body, List.length_cons, List.length_append, countClassDefs,
      countFunctionDefs, totalMethods, extract_body_length fp mp source rest,
      extract_methods_length fp mp source nm body]
    omega
  | PyNode.other :: rest => by
    simp only [extract_body, countClassDefs, countFunctionDefs, totalMethods,
      extract_body_length fp mp source rest]

theorem extract_units_length (fp mp source : String) (tree : PyModule) :
    (extract_units fp mp source tree).length =
      1 + countClassDefs tree.body + countFunctionDefs tree.body + totalMethods tree.body := by
  simp only [extract_units, List.length_cons, extract_body_length fp mp source tree.body]
  omega

theorem span_extract_methods (fp mp source cls : String) :
    ∀ body : List PyNode,
      (body.all (fun c =>
        match c with
        | PyNode.functionDef _ l2 e2 _ => spanLeB l2 e2
        | _ => true)) = true →
      ∀ u ∈ extract_methods fp mp source cls body, u.line_start ≤ u.line_end
  | [], _, u, hu => by simp [extract_methods] at hu
  | PyNode.functionDef nm l e ds :: rest, hall, u, hu => by
    simp only [List.all_cons, Bool.and_eq_true] at hall
    simp only [extract_methods, List.mem_cons] at hu
    rcases hu with rfl | hu
    · simp only [extract_function]
      match e, hall.1 with
      | none, _ => exact Nat.le_refl l
      | some x, hx => exact (by simpa [spanLeB] using hx : l ≤ x)
    · exact span_extract_methods fp mp source cls rest hall.2 u hu
  | PyNode.classDef _ _ _ _ _ :: rest, hall, u, hu => by
    simp only [List.all_cons, Bool.and_eq_true] at hall
    exact span_extract_methods fp mp source cls rest hall.2 u
      (by simpa [extract_methods] using hu)
  | PyNode.other :: rest, hall, u, hu => by
    simp only [List.all_cons, Bool.and_eq_true] at hall
    exact span_extract_methods fp mp source cls rest hall.2 u
      (by simpa [extract_methods] using hu)

theorem span_extract_body (fp mp source : String) :
    ∀ body : List PyNode, (body.all nodeSpanOk) = true →
      ∀ u ∈ extract_body fp mp source body, u.line_start ≤ u.line_end
  | [], _, u, hu => by simp [extract_body] at hu
  | PyNode.functionDef nm l e ds :: rest, hall, u, hu => by
    simp only [List.all_cons, Bool.and_eq_true] at hall
    simp only [extract_body, List.mem_cons] at hu
    rcases hu with rfl | hu
    · simp only [extract_function]
      match e, hall.1 with
      | none, _ => exact Nat.le_refl l
      | some x, hx => exact (by simpa [nodeSpanOk, spanLeB] using hx : l ≤ x)
    · exact span_extract_body fp mp source rest hall.2 u hu
  | PyNode.classDef nm l e ds cbody :: rest, hall, u, hu => by
    simp only [List.all_cons, Bool.and_eq_true] at hall
    have hcls : spanLeB l e = true ∧ (cbody.all (fun c =>
        match c with
        | PyNode.functionDef _ l2 e2 _ => spanLeB l2 e2
        | _ => true)) = true := by
      simpa [nodeSpanOk, Bool.and_eq_true] using hall.1
    simp only [extract_body, List.mem_cons, List.mem_append] at hu
    rcases hu with rfl | hu | hu
    · simp only [extract_class]
      match e, hcls.1 with
      | none, _ => exact Nat.le_refl l
      | some x, hx => exact (by simpa [spanLeB] using hx : l ≤ x)
    · exact span_extract_methods fp mp source nm cbody hcls.2 u hu
    · exact span_extract_body fp mp source rest hall.2 u hu
  | PyNode.other :: rest, hall, u, hu => by
    simp only [List.all_cons, Bool.and_eq_true] at hall
    exact span_extract_body fp mp source rest hall.2 u
      (by simpa [extract_body] using hu)

/-! ### Lemmas about the orchestrator. -/

theorem gen_unit_eq (cd : Option String) (b : Backend) (c : CacheState)
    (u : CodeUnit) : (generate_doc_for_unit cd b c u).1.unit = u := by
  simp only [generate_doc_for_unit]
  split
  · rfl
  · split <;> rfl

theorem generate_docs_map_unit (cd : Option String) (b : Backend) :
    ∀ (c : CacheState) (units : List CodeUnit),
      ((generate_docs cd b c units).1).map (fun r => r.unit) = units
  | _, [] => rfl
  | c, u :: rest => by
    simp only [generate_docs, List.map_cons, gen_unit_eq,
      generate_docs_map_unit cd b (generate_doc_for_unit cd b c u).2 rest]

theorem get_cache_key_disabled {cd : Option String} (h : truthyOptStr cd = false)
    (u : CodeUnit) : get_cache_key cd u = none := by
  simp [get_cache_key, h]

theorem get_cached_doc_nokey (cd : Option String) (c : CacheState) :
    get_cached_doc cd c none = none := by
  simp [get_cached_doc, truthyOptStr]

theorem get_cached_doc_nil (cd : Option String) (k : Option String) :
    get_cached_doc cd [] k = none := by
  unfold get_cached_doc
  split
  · rfl
  · match k with
    | none => rfl
    | some s => rfl

theorem gen_disabled {cd : Option String} (h : truthyOptStr cd = false)
    (b : Backend) (c : CacheState) (u : CodeUnit) :
    generate_doc_for_unit cd b c u =
      (match outcomeOf b u with
       | Except.ok doc =>
         { unit := u, documentation := doc, from_cache := false, error := none }
       | Except.error e =>
         { unit := u,
           documentation := "# " ++ u.name ++ "\n\nError generating documentation: " ++ e,
           from_cache := false, error := some e }, c) := by
  simp only [generate_doc_for_unit, get_cache_key_disabled h, get_cached_doc_nokey]
  simp only [truthyOptStr, Bool.false_eq_true, if_false]
  split <;> rfl

theorem generate_docs_disabled {cd : Option String} (h : truthyOptStr cd = false)
    (b : Backend) : ∀ (c : CacheState) (units : List CodeUnit),
      generate_docs cd b c units =
        (units.map (fun u =>
          match outcomeOf b u with
          | Except.ok doc =>
            { unit := u, documentation := doc, from_cache := false, error := none }
          | Except.error e =>
            { unit := u,
              documentation := "# " ++ u.name ++ "\n\nError generating documentation: " ++ e,
              from_cache := false, error := some e }), c)
  | _, [] => rfl
  | c, u :: rest => by
    simp only [generate_docs, gen_disabled h b c u,
      generate_docs_disabled h b c rest, List.map_cons]

theorem lookup_cacheStore_self (c : CacheState) (k v : String) :
    List.lookup k (cacheStore c k v) = some v := by
  simp [cacheStore, List.lookup]

/-! ### The claims. -/

/-- C1.  `generate_docs` yields exactly one `GenerationResult` per input
`CodeUnit` — none dropped, none duplicated, the i-th result owning the i-th
unit — for every cache configuration; and (stated for the cache-disabled
configuration, where every unit reaches the backend) each result's status and
error detail are determined by the backend outcome for that unit alone: a
backend error makes exactly that unit's result `failed`, carrying the error
detail, while every other unit's status is unaffected, and the batch function
is total — nothing propagates past it. -/
theorem c1 (cd : Option String) (b : Backend) (c : CacheState)
    (units : List CodeUnit) :
    ((generate_docs cd b c units).1).map (fun r => r.unit) = units ∧
    (truthyOptStr cd = false → ∀ i : Nat,
      ((generate_docs cd b c units).1[i]?).map statusOf =
        (units[i]?).map (fun u =>
          match outcomeOf b u with
          | Except.ok _ => "ok"
          | Except.error _ => "failed") ∧
      ((generate_docs cd b c units).1[i]?).map (fun r => r.error) =
        (units[i]?).map (fun u => errPart (outcomeOf b u))) := by
  refine ⟨generate_docs_map_unit cd b c units, fun h i => ?_⟩
  rw [generate_docs_disabled h b c units]
  simp only [List.getElem?_map]
  cases units[i]? with
  | none => simp
  | some u =>
    cases ho : outcomeOf b u <;> simp [statusOf, errPart, ho]

/-- Witness for C1: three function units, the backend failing exactly for the
middle one; the middle result is `failed` with the error detail, the
neighbours are `ok`. -/
theorem c1_witness :
    truthyOptStr none = false ∧
    (((generate_docs none (bFailOn "g") []
        [mku "function" "f" "s", mku "function" "g" "s",
         mku "function" "h" "s"]).1[1]?).map statusOf =
      (([mku "function" "f" "s", mku "function" "g" "s",
         mku "function" "h" "s"] : List CodeUnit)[1]?).map (fun u =>
          match outcomeOf (bFailOn "g") u with
          | Except.ok _ => "ok"
          | Except.error _ => "failed")) :=
  ⟨rfl, ((c1 none (bFailOn "g") []
    [mku "function" "f" "s", mku "function" "g" "s", mku "function" "h" "s"]).2
      rfl 1).1⟩

/-- C2.  A file that parses successfully emits the module unit followed by the
top-level extraction in source order, and the unit count is
1 + top-level classes + top-level functions + methods of top-level classes. -/
theorem c2 (fp mp source : String) (astP : String → Option PyModule)
    (tree : PyModule) (hparse : astP source = some tree) :
    parse_file fp mp (Except.ok source) astP =
      Except.ok (extract_units fp mp source tree) ∧
    (extract_units fp mp source tree).length =
      1 + countClassDefs tree.body + countFunctionDefs tree.body +
        totalMethods tree.body := by
  constructor
  · simp [parse_file, hparse]
  · exact extract_units_length fp mp source tree

/-- Witness for C2: the spec's worked example (module + `add` + `Box` with
method `get`) yields exactly 4 units. -/
theorem c2_witness :
    (parse_file "ex.py" "ex" (Except.ok "l1\nl2") (fun _ => some treeW) =
      Except.ok (extract_units "ex.py" "ex" "l1\nl2" treeW) ∧
    (extract_units "ex.py" "ex" "l1\nl2" treeW).length =
      1 + countClassDefs treeW.body + countFunctionDefs treeW.body +
        totalMethods treeW.body) ∧
    (extract_units "ex.py" "ex" "l1\nl2" treeW).length = 4 :=
  ⟨c2 "ex.py" "ex" "l1\nl2" (fun _ => some treeW) treeW rfl, rfl⟩

/-- C10.  The implicit order guarantee of `executor.map`: the i-th result's
unit is the i-th input unit, for every position and configuration. -/
theorem c10 (cd : Option String) (b : Backend) (c : CacheState)
    (units : List CodeUnit) (i : Nat) :
    ((generate_docs cd b c units).1[i]?).map (fun r => r.unit) = units[i]? := by
  rw [← List.getElem?_map, generate_docs_map_unit cd b c units]

theorem parse_file_read_ok (fp mp s : String) (astP : String → Option PyModule) :
    ∃ us, parse_file fp mp (Except.ok s) astP = Except.ok us := by
  match h : astP s with
  | none => exact ⟨[], by simp [parse_file, h]⟩
  | some tree => exact ⟨extract_units fp mp s tree, by simp [parse_file, h]⟩

/-- C3 counterexample.  One unreadable file among two: the walk returns the
read error — it does not skip and continue — although the second file alone
would have produced its module unit. -/
theorem c3_counterexample :
    parse astPW
      [("bad.py", "bad", Except.error "unreadable"),
       ("good.py", "good", Except.ok "")] = Except.error "unreadable" ∧
    parse astPW [("good.py", "good", Except.ok "")] =
      Except.ok [CodeUnit.mk "module" "good" "" none "good.py" "good" 1 0 none] :=
  ⟨rfl, rfl⟩

/-- C3 amended.  An unreadable file aborts the whole walk — the read error
propagates out of `parse` past every file after the readable prefix, so no
units at all are returned; only a file that fails to parse (a syntax error)
is skipped silently, with the walk continuing over the rest. -/
theorem c3_amended (astP : String → Option PyModule) :
    (∀ (pre : List (String × String × Except String String)) (fp mp e : String)
        (rest : List (String × String × Except String String)),
      (∀ f ∈ pre, ∃ s, f.2.2 = Except.ok s) →
      parse astP (pre ++ (fp, mp, Except.error e) :: rest) = Except.error e) ∧
    (∀ (fp2 mp2 source : String)
        (rest2 : List (String × String × Except String String)),
      astP source = none →
      parse astP ((fp2, mp2, Except.ok source) :: rest2) = parse astP rest2) := by
  constructor
  · intro pre
    induction pre with
    | nil =>
      intro fp mp e rest _
      simp [parse, parse_file]
    | cons f pre ih =>
      intro fp mp e rest hpre
      obtain ⟨fp1, mp1, rd1⟩ := f
      obtain ⟨s, hs⟩ := hpre (fp1, mp1, rd1) (List.mem_cons_self _ _)
      simp only at hs
      subst hs
      obtain ⟨us, hus⟩ := parse_file_read_ok fp1 mp1 s astP
      have hrec := ih fp mp e rest (fun g hg => hpre g (List.mem_cons_of_mem _ hg))
      simp [parse, hus, hrec]
  · intro fp2 mp2 source rest2 hnone
    have hpf : parse_file fp2 mp2 (Except.ok source) astP = Except.ok [] := by
      simp [parse_file, hnone]
    simp only [parse, hpf]
    cases parse astP rest2 <;> simp

/-- Witness for C3 amended: a readable prefix followed by an unreadable file
aborts with that error; a syntax-error file is skipped and the walk equals the
walk of the remaining files. -/
theorem c3_witness :
    parse astPW ([("a.py", "a", Except.ok "")] ++
      ("bad.py", "bad", Except.error "denied") :: []) = Except.error "denied" ∧
    parse astPW (("s.py", "s", Except.ok "oops") :: [("t.py", "t", Except.ok "")]) =
      parse astPW [("t.py", "t", Except.ok "")] :=
  ⟨(c3_amended astPW).1 [("a.py", "a", Except.ok "")] "bad.py" "bad" "denied" []
    (by
      intro f hf
      simp only [List.mem_singleton] at hf
      subst hf
      exact ⟨"", rfl⟩),
   (c3_amended astPW).2 "s.py" "s" "oops" [("t.py", "t", Except.ok "")] rfl⟩

theorem get_cache_key_enabled {cd : Option String} (hcd : truthyOptStr cd = true)
    (u : CodeUnit) : get_cache_key cd u = some (md5hex (hash_input u)) := by
  simp [get_cache_key, hcd]

theorem truthyOptStr_some (s : String) : truthyOptStr (some s) = truthyStr s := rfl

theorem save_to_cache_some {cd : Option String} (c : CacheState) (s t : String)
    (hcd : truthyOptStr cd = true) (hts : truthyStr s = true) :
    save_to_cache cd c (some s) t = cacheStore c s t := by
  simp [save_to_cache, hcd, truthyOptStr_some, hts]

theorem get_cached_doc_some {cd : Option String} (c : CacheState) (s : String)
    (hcd : truthyOptStr cd = true) (hts : truthyStr s = true) :
    get_cached_doc cd c (some s) = List.lookup s c := by
  simp [get_cached_doc, hcd, truthyOptStr_some, hts]

theorem get_cached_doc_store {cd : Option String} (c : CacheState) (u : CodeUnit)
    (t : String) (hcd : truthyOptStr cd = true) :
    get_cached_doc cd (cacheStore c (md5hex (hash_input u)) t)
      (get_cache_key cd u) = some t := by
  rw [get_cache_key_enabled hcd,
    get_cached_doc_some _ _ hcd (truthyStr_md5hex (hash_input u)),
    lookup_cacheStore_self]

/-- The fresh-generation path of `_generate_doc_for_unit`: on a cache miss
(or an untruthy cached text) with a successful chain call, the result is a
non-cached success and the text is stored under the unit's fingerprint. -/
theorem gen_fresh {cd : Option String} (b : Backend) (c : CacheState)
    (u : CodeUnit) (t : String) (hcd : truthyOptStr cd = true)
    (hmiss : truthyOptStr (get_cached_doc cd c (get_cache_key cd u)) = false)
    (hok : outcomeOf b u = Except.ok t) :
    generate_doc_for_unit cd b c u =
      ({ unit := u, documentation := t, from_cache := false, error := none },
       cacheStore c (md5hex (hash_input u)) t) := by
  have hkey := get_cache_key_enabled hcd u
  have htK : truthyOptStr (get_cache_key cd u) = true := by
    rw [hkey]
    exact truthyStr_md5hex (hash_input u)
  simp only [generate_doc_for_unit, hmiss, Bool.false_eq_true, if_false, hok, htK,
    if_true]
  rw [hkey, save_to_cache_some c _ t hcd (truthyStr_md5hex (hash_input u))]

/-- The cache-hit path of `_generate_doc_for_unit`: a truthy cached text is
returned as a cached result, with no chain call and no cache change. -/
theorem gen_hit {cd : Option String} (b : Backend) (c : CacheState)
    (u : CodeUnit) (t : String)
    (hcache : get_cached_doc cd c (get_cache_key cd u) = some t)
    (htt : truthyStr t = true) :
    generate_doc_for_unit cd b c u =
      ({ unit := u, documentation := t, from_cache := true, error := none }, c) := by
  simp only [generate_doc_for_unit, hcache, truthyOptStr, htt, if_true, Option.getD_some]

/-- C4.  The cache fingerprint is derived from `(type, name, source)` only:
two units agreeing there — whatever their file path or line numbers — get the
same key, and once the first unit's documentation is saved, the lookup for the
second returns the stored text. -/
theorem c4 (cd : Option String) (u1 u2 : CodeUnit) (c : CacheState) (doc : String)
    (hcd : truthyOptStr cd = true) (ht : u1.type = u2.type)
    (hn : u1.name = u2.name) (hs : u1.source = u2.source) :
    get_cache_key cd u1 = get_cache_key cd u2 ∧
    get_cached_doc cd (save_to_cache cd c (get_cache_key cd u1) doc)
      (get_cache_key cd u2) = some doc := by
  have hh : hash_input u1 = hash_input u2 := by
    simp [hash_input, ht, hn, hs]
  have hk : get_cache_key cd u1 = get_cache_key cd u2 := by
    simp [get_cache_key, hh]
  refine ⟨hk, ?_⟩
  rw [← hk, get_cache_key_enabled hcd u1,
    save_to_cache_some c _ doc hcd (truthyStr_md5hex (hash_input u1)),
    get_cached_doc_some _ _ hcd (truthyStr_md5hex (hash_input u1)),
    lookup_cacheStore_self]

/-- Witness for C4: two units identical in kind, name and source but with a
different file path and line numbers share the key and the second lookup hits. -/
theorem c4_witness :
    get_cache_key (some "cache") (mku "function" "f" "def f(): pass") =
      get_cache_key (some "cache")
        { mku "function" "f" "def f(): pass" with
            file_path := "other.py", line_start := 5, line_end := 5 } ∧
    get_cached_doc (some "cache")
      (save_to_cache (some "cache") []
        (get_cache_key (some "cache") (mku "function" "f" "def f(): pass")) "text")
      (get_cache_key (some "cache")
        { mku "function" "f" "def f(): pass" with
            file_path := "other.py", line_start := 5, line_end := 5 }) = some "text" :=
  c4 (some "cache") (mku "function" "f" "def f(): pass")
    { mku "function" "f" "def f(): pass" with
        file_path := "other.py", line_start := 5, line_end := 5 } [] "text"
    rfl rfl rfl rfl

theorem sep_split :
    ∀ a1 a2 r1 r2 : List Char, ':' ∉ a1 → ':' ∉ a2 →
      a1 ++ ':' :: r1 = a2 ++ ':' :: r2 → a1 = a2 ∧ r1 = r2
  | [], [], r1, r2, _, _, he => ⟨rfl, by simpa using he⟩
  | [], c :: t, r1, r2, _, h2, he => by
    simp only [List.nil_append, List.cons_append, List.cons.injEq] at he
    rw [← he.1] at h2
    exact absurd (List.mem_cons_self _ _) h2
  | c :: t, [], r1, r2, h1, _, he => by
    simp only [List.nil_append, List.cons_append, List.cons.injEq] at he
    rw [he.1] at h1
    exact absurd (List.mem_cons_self _ _) h1
  | x1 :: t1, x2 :: t2, r1, r2, h1, h2, he => by
    simp only [List.cons_append, List.cons.injEq] at he
    obtain ⟨hc, ht⟩ := he
    have h1t : ':' ∉ t1 := fun h => h1 (List.mem_cons_of_mem _ h)
    have h2t : ':' ∉ t2 := fun h => h2 (List.mem_cons_of_mem _ h)
    obtain ⟨ha, hr⟩ := sep_split t1 t2 r1 r2 h1t h2t ht
    exact ⟨by rw [hc, ha], hr⟩

/-- C5 counterexample.  The pre-hash string uses a bare ":" separator, and a
":" in the name makes it ambiguous: two distinct `(kind, name, source_text)`
triples with identical concatenations. -/
theorem c5_counterexample :
    hash_input (mku "module" "a:x" "y") = hash_input (mku "module" "a" "x:y") ∧
    (mku "module" "a:x" "y").name ≠ (mku "module" "a" "x:y").name :=
  ⟨rfl, by decide⟩

/-- C5 amended.  For triples whose kind and name are free of the ":"
separator — true of every kind tag the extractor emits and of Python
identifiers, though not of arbitrary strings — the pre-hash concatenation is
injective: equal concatenations force equal kinds, names and source texts. -/
theorem c5_amended (u1 u2 : CodeUnit)
    (h1 : ':' ∉ u1.type.data) (h2 : ':' ∉ u1.name.data)
    (h3 : ':' ∉ u2.type.data) (h4 : ':' ∉ u2.name.data)
    (heq : hash_input u1 = hash_input u2) :
    u1.type = u2.type ∧ u1.name = u2.name ∧ u1.source = u2.source := by
  have hd : u1.type.data ++ ':' :: (u1.name.data ++ ':' :: u1.source.data) =
      u2.type.data ++ ':' :: (u2.name.data ++ ':' :: u2.source.data) := by
    have h := congrArg String.data heq
    simpa [hash_input, String.data_append, List.append_assoc] using h
  obtain ⟨hty, hrest⟩ := sep_split _ _ _ _ h1 h3 hd
  obtain ⟨hnm, hsrc⟩ := sep_split _ _ _ _ h2 h4 hrest
  exact ⟨string_data_inj hty, string_data_inj hnm, string_data_inj hsrc⟩

/-- Witness for C5 amended at a concrete colon-free pair (the source text may
freely contain ":"). -/
theorem c5_witness :
    (mku "function" "f" "def f(): pass").type = (mku "function" "f" "def f(): pass").type ∧
    (mku "function" "f" "def f(): pass").name = (mku "function" "f" "def f(): pass").name ∧
    (mku "function" "f" "def f(): pass").source = (mku "function" "f" "def f(): pass").source :=
  c5_amended (mku "function" "f" "def f(): pass") (mku "function" "f" "def f(): pass")
    (by decide) (by decide) (by decide) (by decide) rfl

/-- C6 counterexample.  The empty file parses successfully (empty body) and
its module unit has `line_start = 1` but `line_end = 0` — the spanning
invariant `line_end >= line_start` fails on it. -/
theorem c6_counterexample :
    (extract_units "f.py" "m" "" { body := [], docstring := none }).map
      (fun u => (u.line_start, u.line_end)) = [(1, 0)] ∧
    ¬ (1 : Nat) ≤ 0 :=
  ⟨rfl, by decide⟩

/-- C6 amended.  For a nonempty source file whose tree carries the
parser-guaranteed spans (`lineno ≤ end_lineno` on the nodes the extractor
reads), every emitted unit satisfies `line_start ≤ line_end`, and the single
module unit heads the list with `line_start = 1` and `line_end` = the file's
total line count; for the empty file the module unit degenerates to
`line_start = 1 > 0 = line_end`. -/
theorem c6_amended (fp mp source : String) (tree : PyModule)
    (hs : source ≠ "") (hwf : (tree.body.all nodeSpanOk) = true) :
    (∀ u ∈ extract_units fp mp source tree, u.line_start ≤ u.line_end) ∧
    ∃ m, (extract_units fp mp source tree).head? = some m ∧
      m.type = "module" ∧ m.line_start = 1 ∧
      m.line_end = (splitlines source).length := by
  constructor
  · intro u hu
    simp only [extract_units, List.mem_cons] at hu
    rcases hu with rfl | hu
    · exact splitlines_length_pos hs
    · exact span_extract_body fp mp source tree.body hwf u hu
  · exact ⟨_, rfl, rfl, rfl, rfl⟩

/-- Witness for C6 amended: a two-line file with the worked-example tree. -/
theorem c6_witness :
    (∀ u ∈ extract_units "w.py" "w" "l1\nl2" treeW, u.line_start ≤ u.line_end) ∧
    ∃ m, (extract_units "w.py" "w" "l1\nl2" treeW).head? = some m ∧
      m.type = "module" ∧ m.line_start = 1 ∧
      m.line_end = (splitlines "l1\nl2").length :=
  c6_amended "w.py" "w" "l1\nl2" treeW (by decide) rfl

/-- C7 counterexample.  A backend that succeeds with the empty text: the first
generation has `status = ok` with text `""`, but the cached empty text is
falsy, so the second call is not a cache hit (`status = ok` again, the chain
is re-invoked) — the claim fails for an empty successful text. -/
theorem c7_counterexample :
    statusOf (generate_doc_for_unit (some "cache") (bOk "") []
      (mku "function" "f" "s")).1 = "ok" ∧
    (generate_doc_for_unit (some "cache") (bOk "") []
      (mku "function" "f" "s")).1.documentation = "" ∧
    statusOf (generate_doc_for_unit (some "cache") (bOk "")
      (generate_doc_for_unit (some "cache") (bOk "") [] (mku "function" "f" "s")).2
      (mku "function" "f" "s")).1 ≠ "cached" := by
  have hcd : truthyOptStr (some "cache") = true := by decide
  have hmiss : truthyOptStr (get_cached_doc (some "cache") []
      (get_cache_key (some "cache") (mku "function" "f" "s"))) = false := by
    rw [get_cached_doc_nil]
    rfl
  have hok : outcomeOf (bOk "") (mku "function" "f" "s") = Except.ok "" := rfl
  have h1 := gen_fresh (bOk "") [] (mku "function" "f" "s") "" hcd hmiss hok
  have hmiss2 : truthyOptStr (get_cached_doc (some "cache")
      (cacheStore [] (md5hex (hash_input (mku "function" "f" "s"))) "")
      (get_cache_key (some "cache") (mku "function" "f" "s"))) = false := by
    rw [get_cached_doc_store _ _ _ hcd]
    rfl
  have h2 := gen_fresh (bOk "")
    (cacheStore [] (md5hex (hash_input (mku "function" "f" "s"))) "")
    (mku "function" "f" "s") "" hcd hmiss2 hok
  rw [h1]
  rw [h2]
  exact ⟨rfl, rfl, by decide⟩

/-- C7 amended.  With caching enabled, for a unit not yet (truthily) cached
whose generation succeeds with a nonempty text: the first call returns a
non-cached `ok` result carrying that text, and the second call — whatever
backend is supplied, i.e. with no chain invocation — returns the cached
result with the identical text and `status = cached`, leaving the cache
unchanged. -/
theorem c7_amended (cd : Option String) (b : Backend) (c : CacheState)
    (u : CodeUnit) (t : String) (hcd : truthyOptStr cd = true)
    (hmiss : truthyOptStr (get_cached_doc cd c (get_cache_key cd u)) = false)
    (hok : outcomeOf b u = Except.ok t) (hne : t ≠ "") :
    (generate_doc_for_unit cd b c u).1 =
      { unit := u, documentation := t, from_cache := false, error := none } ∧
    statusOf (generate_doc_for_unit cd b c u).1 = "ok" ∧
    (∀ b2 : Backend,
      generate_doc_for_unit cd b2 (generate_doc_for_unit cd b c u).2 u =
        ({ unit := u, documentation := t, from_cache := true, error := none },
         (generate_doc_for_unit cd b c u).2)) ∧
    statusOf { unit := u, documentation := t, from_cache := true, error := none } =
      "cached" := by
  have h1 := gen_fresh b c u t hcd hmiss hok
  have htt : truthyStr t = true := by
    simp [truthyStr, bne_iff_ne, hne]
  refine ⟨by rw [h1], by rw [h1]; rfl, fun b2 => ?_, rfl⟩
  rw [h1]
  exact gen_hit b2 (cacheStore c (md5hex (hash_input u)) t) u t
    (get_cached_doc_store c u t hcd) htt

/-- Witness for C7 amended: empty cache, backend text "docs". -/
theorem c7_witness :
    (generate_doc_for_unit (some "cache") (bOk "docs") [] (mku "function" "f" "s")).1 =
      { unit := mku "function" "f" "s", documentation := "docs",
        from_cache := false, error := none } ∧
    statusOf (generate_doc_for_unit (some "cache") (bOk "docs") []
      (mku "function" "f" "s")).1 = "ok" ∧
    (∀ b2 : Backend,
      generate_doc_for_unit (some "cache") b2
        (generate_doc_for_unit (some "cache") (bOk "docs") []
          (mku "function" "f" "s")).2 (mku "function" "f" "s") =
        ({ unit := mku "function" "f" "s", documentation := "docs",
           from_cache := true, error := none },
         (generate_doc_for_unit (some "cache") (bOk "docs") []
           (mku "function" "f" "s")).2)) ∧
    statusOf { unit := mku "function" "f" "s", documentation := "docs",
               from_cache := true, error := none } = "cached" :=
  c7_amended (some "cache") (bOk "docs") [] (mku "function" "f" "s") "docs"
    (by decide)
    (by rw [get_cached_doc_nil]; rfl)
    rfl (by decide)

/-! ### Lemmas about the aggregator. -/

theorem nameLe_total (x y : GenerationResult) :
    nameLe x y = true ∨ nameLe y x = true := strLe_total _ _

theorem nameLe_trans (x y z : GenerationResult) (h1 : nameLe x y = true)
    (h2 : nameLe y z = true) : nameLe x z = true := strLe_trans h1 h2

theorem keyLe_total (x y : String × List GenerationResult) :
    keyLe x y = true ∨ keyLe y x = true := strLe_total _ _

theorem keyLe_trans (x y z : String × List GenerationResult)
    (h1 : keyLe x y = true) (h2 : keyLe y z = true) : keyLe x z = true :=
  strLe_trans h1 h2

theorem pairwise_isort_nameLe (l : List GenerationResult) :
    (isort nameLe l).Pairwise (fun x y => strLe x.unit.name y.unit.name = true) :=
  pairwise_isort nameLe_total nameLe_trans l

theorem pairwise_isort_keyLe (l : List (String × List GenerationResult)) :
    (isort keyLe l).Pairwise (fun x y => strLe x.1 y.1 = true) :=
  pairwise_isort keyLe_total keyLe_trans l

theorem findGroup_insertGrouped (k k2 : String) (d : GenerationResult) :
    ∀ acc, findGroup (insertGrouped acc k d) k2 =
      if k2 = k then findGroup acc k2 ++ [d] else findGroup acc k2
  | [] => by
    by_cases h : k2 = k
    · subst h
      simp [insertGrouped, findGroup]
    · have h2 : ¬ k = k2 := fun hh => h hh.symm
      simp [insertGrouped, findGroup, h, h2]
  | (k0, ds) :: rest => by
    by_cases h0 : k0 = k
    · subst h0
      by_cases h2 : k0 = k2
      · subst h2
        simp [insertGrouped, findGroup]
      · have h2s : ¬ k2 = k0 := fun hh => h2 hh.symm
        simp [insertGrouped, findGroup, h2, h2s]
    · by_cases h2 : k0 = k2
      · subst h2
        have h2s : ¬ k0 = k := h0
        simp [insertGrouped, findGroup, h0, h2s]
      · simp [insertGrouped, findGroup, h0, h2,
          findGroup_insertGrouped k k2 d rest]

theorem findGroup_groupFold_aux (gb : String) :
    ∀ (docs : List GenerationResult)
      (acc : List (String × List GenerationResult)) (k : String),
      findGroup (docs.foldl (fun a d =>
        if skipDoc gb d.unit then a
        else insertGrouped a (group_key gb d.unit) d) acc) k =
      findGroup acc k ++ docs.filter (fun d =>
        !skipDoc gb d.unit && (group_key gb d.unit == k))
  | [], acc, k => by simp
  | d :: rest, acc, k => by
    simp only [List.foldl_cons, List.filter_cons]
    by_cases hskip : skipDoc gb d.unit = true
    · simp [hskip, findGroup_groupFold_aux gb rest acc k]
    · by_cases hk : group_key gb d.unit = k
      · simp [hskip, hk, findGroup_groupFold_aux gb rest _ k,
          findGroup_insertGrouped]
      · have hks : ¬ k = group_key gb d.unit := fun hh => hk hh.symm
        simp [hskip, hk, hks, findGroup_groupFold_aux gb rest _ k,
          findGroup_insertGrouped]

theorem findGroup_groupFold (gb : String) (docs : List GenerationResult)
    (k : String) :
    findGroup (groupFold gb docs) k = docs.filter (fun d =>
      !skipDoc gb d.unit && (group_key gb d.unit == k)) := by
  have h := findGroup_groupFold_aux gb docs [] k
  simpa [groupFold, findGroup] using h

theorem findGroup_mem :
    ∀ (l : List (String × List GenerationResult)) (k : String),
      findGroup l k ≠ [] → (k, findGroup l k) ∈ l
  | [], _, h => absurd rfl h
  | (k0, ds) :: rest, k, h => by
    by_cases h0 : k0 = k
    · subst h0
      simp only [findGroup, if_pos rfl] at h ⊢
      exact List.mem_cons_self _ _
    · simp only [findGroup, if_neg h0] at h ⊢
      exact List.mem_cons_of_mem _ (findGroup_mem rest k h)

theorem mem_keys_insertGrouped (k k2 : String) (d : GenerationResult) :
    ∀ acc, k2 ∈ (insertGrouped acc k d).map Prod.fst ↔
      k2 ∈ acc.map Prod.fst ∨ k2 = k
  | [] => by
    simp only [insertGrouped, List.map_cons, List.map_nil, List.mem_singleton,
      List.not_mem_nil]
    tauto
  | (k0, ds) :: rest => by
    by_cases h0 : k0 = k
    · simp only [insertGrouped, if_pos h0, List.map_cons, List.mem_cons]
      subst h0
      tauto
    · simp only [insertGrouped, if_neg h0, List.map_cons, List.mem_cons,
        mem_keys_insertGrouped k k2 d rest]
      tauto

theorem nodup_keys_insertGrouped (k : String) (d : GenerationResult) :
    ∀ acc, ((acc.map Prod.fst).Nodup) →
      (((insertGrouped acc k d).map Prod.fst).Nodup)
  | [], _ => by simp [insertGrouped]
  | (k0, ds) :: rest, hnd => by
    simp only [List.map_cons, List.nodup_cons] at hnd
    by_cases h0 : k0 = k
    · simp only [insertGrouped, if_pos h0, List.map_cons, List.nodup_cons]
      exact hnd
    · simp only [insertGrouped, if_neg h0, List.map_cons, List.nodup_cons]
      refine ⟨?_, nodup_keys_insertGrouped k d rest hnd.2⟩
      rw [mem_keys_insertGrouped]
      rintro (hmem | rfl)
      · exact hnd.1 hmem
      · exact h0 rfl

theorem vals_ne_insertGrouped (k : String) (d : GenerationResult) :
    ∀ acc, (∀ p ∈ acc, p.2 ≠ []) →
      ∀ p ∈ insertGrouped acc k d, p.2 ≠ []
  | [], _, p, hp => by
    simp only [insertGrouped, List.mem_singleton] at hp
    rw [hp]
    simp
  | (k0, ds) :: rest, hv, p, hp => by
    by_cases h0 : k0 = k
    · simp only [insertGrouped, if_pos h0, List.mem_cons] at hp
      rcases hp with hp | hp
      · rw [hp]
        simp
      · exact hv p (List.mem_cons_of_mem _ hp)
    · simp only [insertGrouped, if_neg h0, List.mem_cons] at hp
      rcases hp with hp | hp
      · rw [hp]
        exact hv _ (List.mem_cons_self _ _)
      · exact vals_ne_insertGrouped k d rest
          (fun q hq => hv q (List.mem_cons_of_mem _ hq)) p hp

theorem groupFold_aux_keys_nodup (gb : String) :
    ∀ (docs : List GenerationResult)
      (acc : List (String × List GenerationResult)),
      ((acc.map Prod.fst).Nodup) →
      (((docs.foldl (fun a d =>
        if skipDoc gb d.unit then a
        else insertGrouped a (group_key gb d.unit) d) acc).map Prod.fst).Nodup)
  | [], _, h => h
  | d :: rest, acc, h => by
    simp only [List.foldl_cons]
    by_cases hskip : skipDoc gb d.unit = true
    · simp only [hskip, if_true]
      exact groupFold_aux_keys_nodup gb rest acc h
    · simp only [hskip, if_false]
      exact groupFold_aux_keys_nodup gb rest _
        (nodup_keys_insertGrouped _ d acc h)

theorem groupFold_keys_nodup (gb : String) (docs : List GenerationResult) :
    (((groupFold gb docs).map Prod.fst).Nodup) :=
  groupFold_aux_keys_nodup gb docs [] (by simp)

theorem groupFold_aux_vals_ne (gb : String) :
    ∀ (docs : List GenerationResult)
      (acc : List (String × List GenerationResult)),
      (∀ p ∈ acc, p.2 ≠ []) →
      ∀ p ∈ docs.foldl (fun a d =>
        if skipDoc gb d.unit then a
        else insertGrouped a (group_key gb d.unit) d) acc, p.2 ≠ []
  | [], _, h => h
  | d :: rest, acc, h => by
    simp only [List.foldl_cons]
    by_cases hskip : skipDoc gb d.unit = true
    · simp only [hskip, if_true]
      exact groupFold_aux_vals_ne gb rest acc h
    · simp only [hskip, if_false]
      exact groupFold_aux_vals_ne gb rest _
        (vals_ne_insertGrouped _ d acc h)

theorem groupFold_vals_ne (gb : String) (docs : List GenerationResult) :
    ∀ p ∈ groupFold gb docs, p.2 ≠ [] :=
  groupFold_aux_vals_ne gb docs [] (by simp)

theorem mem_keys_iff_findGroup :
    ∀ (l : List (String × List GenerationResult)),
      (∀ p ∈ l, p.2 ≠ []) → ∀ k : String,
      (k ∈ l.map Prod.fst ↔ findGroup l k ≠ [])
  | [], _, k => by simp [findGroup]
  | (k0, ds) :: rest, hv, k => by
    by_cases h0 : k0 = k
    · simp only [findGroup, if_pos h0, List.map_cons, List.mem_cons]
      constructor
      · intro _
        exact hv _ (List.mem_cons_self _ _)
      · intro _
        exact Or.inl h0.symm
    · have h0s : ¬ k = k0 := fun hh => h0 hh.symm
      simp only [findGroup, if_neg h0, List.map_cons, List.mem_cons]
      rw [← mem_keys_iff_findGroup rest
        (fun q hq => hv q (List.mem_cons_of_mem _ hq)) k]
      constructor
      · rintro (hk | hm)
        · exact absurd hk h0s
        · exact hm
      · exact Or.inr

theorem pair_mem_iff :
    ∀ (l : List (String × List GenerationResult)),
      ((l.map Prod.fst).Nodup) → ∀ (k : String) (v : List GenerationResult),
      ((k, v) ∈ l ↔ (k ∈ l.map Prod.fst ∧ v = findGroup l k))
  | [], _, k, v => by simp [findGroup]
  | (k0, ds) :: rest, hnd, k, v => by
    simp only [List.map_cons, List.nodup_cons] at hnd
    by_cases h0 : k0 = k
    · subst h0
      have hfg : findGroup ((k0, ds) :: rest) k0 = ds := by simp [findGroup]
      rw [hfg]
      constructor
      · intro hm
        rcases List.mem_cons.mp hm with he | hm2
        · exact ⟨List.mem_cons_self _ _, congrArg Prod.snd he⟩
        · exact absurd (List.mem_map_of_mem Prod.fst hm2) hnd.1
      · rintro ⟨_, hv2⟩
        rw [hv2]
        exact List.mem_cons_self _ _
    · have h0s : ¬ k = k0 := fun hh => h0 hh.symm
      have hfg : findGroup ((k0, ds) :: rest) k = findGroup rest k := by
        simp [findGroup, h0]
      rw [hfg]
      constructor
      · intro hm
        rcases List.mem_cons.mp hm with he | hm2
        · exact absurd (congrArg Prod.fst he) h0s
        · have hr := (pair_mem_iff rest hnd.2 k v).mp hm2
          exact ⟨List.mem_cons.mpr (Or.inr hr.1), hr.2⟩
      · rintro ⟨hmem, hv2⟩
        rcases List.mem_cons.mp hmem with hk | hmem2
        · exact absurd hk h0s
        · exact List.mem_cons_of_mem _ ((pair_mem_iff rest hnd.2 k v).mpr ⟨hmem2, hv2⟩)

theorem findGroup_map_sort :
    ∀ (l : List (String × List GenerationResult)) (k : String),
      findGroup (l.map (fun p => (p.1, isort nameLe p.2))) k =
        isort nameLe (findGroup l k)
  | [], _ => rfl
  | (k0, ds) :: rest, k => by
    by_cases h0 : k0 = k
    · subst h0
      simp [findGroup]
    · simp [findGroup, h0, findGroup_map_sort rest k]

theorem keys_map_sort (l : List (String × List GenerationResult)) :
    ((l.map (fun p => (p.1, isort nameLe p.2))).map Prod.fst) = l.map Prod.fst := by
  induction l with
  | nil => rfl
  | cons p rest ih => simp [ih]

/-- C8 counterexample.  Under by-module grouping a module-kind result is
skipped entirely: a list holding only a module result groups to the empty
mapping, so that result appears under no key at all (in particular not under
its `module_path`). -/
theorem c8_counterexample :
    gdoc (mku "module" "m" "src") ∈ [gdoc (mku "module" "m" "src")] ∧
    group_docs "module" [gdoc (mku "module" "m" "src")] = [] :=
  ⟨List.mem_singleton.mpr rfl, rfl⟩

/-- C8 amended.  Under by-module grouping, every result whose unit kind is not
"module" appears in the group keyed by its owning unit's `module_path`;
module-kind results are omitted from the grouping. -/
theorem c8_amended (docs : List GenerationResult) (r : GenerationResult)
    (hr : r ∈ docs) (hk : r.unit.type ≠ "module") :
    ∃ g, (r.unit.module_path, g) ∈ group_docs "module" docs ∧ r ∈ g := by
  have hpred : (!skipDoc "module" r.unit &&
      (group_key "module" r.unit == r.unit.module_path)) = true := by
    simp [skipDoc, group_key, hk]
  have hfg : r ∈ findGroup (groupFold "module" docs) r.unit.module_path := by
    rw [findGroup_groupFold]
    exact List.mem_filter.mpr ⟨hr, hpred⟩
  have hne : findGroup (groupFold "module" docs) r.unit.module_path ≠ [] := by
    intro h
    rw [h] at hfg
    exact List.not_mem_nil r hfg
  have hpair := findGroup_mem _ _ hne
  refine ⟨isort nameLe (findGroup (groupFold "module" docs) r.unit.module_path),
    ?_, ?_⟩
  · have hmap : (r.unit.module_path,
        isort nameLe (findGroup (groupFold "module" docs) r.unit.module_path)) ∈
        (groupFold "module" docs).map (fun p => (p.1, isort nameLe p.2)) :=
      List.mem_map_of_mem _ hpair
    exact ((isort_perm keyLe _).mem_iff).mpr hmap
  · exact ((isort_perm nameLe _).mem_iff).mpr hfg

/-- Witness for C8 amended: a single function result lands in the group keyed
by its module path. -/
theorem c8_witness :
    ∃ g, ((gdoc (mku "function" "f" "s")).unit.module_path, g) ∈
        group_docs "module" [gdoc (mku "function" "f" "s")] ∧
      gdoc (mku "function" "f" "s") ∈ g :=
  c8_amended [gdoc (mku "function" "f" "s")] (gdoc (mku "function" "f" "s"))
    (List.mem_singleton.mpr rfl) (by decide)

/-- C9 counterexample.  Python's sort is stable, so two results with the same
unit name in one group keep their input order: permuting the input list
permutes the grouped output. -/
theorem c9_counterexample :
    ([gdoc (mku "function" "f" "s1"), gdoc (mku "function" "f" "s2")] :
      List GenerationResult).Perm
      [gdoc (mku "function" "f" "s2"), gdoc (mku "function" "f" "s1")] ∧
    group_docs "flat" [gdoc (mku "function" "f" "s1"), gdoc (mku "function" "f" "s2")] ≠
      group_docs "flat" [gdoc (mku "function" "f" "s2"), gdoc (mku "function" "f" "s1")] := by
  constructor
  · exact List.Perm.swap _ _ _
  · decide

/-- C9 amended.  Provided no two results sharing a group key share the owning
unit's name (the condition the stable sort needs to become order-insensitive),
grouping is permutation-invariant: permuted inputs give identical grouped
output — same group-key order and same within-group order — for every
grouping mode. -/
theorem c9_amended (gb : String) (docs1 docs2 : List GenerationResult)
    (hperm : docs1.Perm docs2)
    (hnames : docs1.Pairwise (fun d1 d2 =>
      skipDoc gb d1.unit = false → skipDoc gb d2.unit = false →
      group_key gb d1.unit = group_key gb d2.unit →
      d1.unit.name ≠ d2.unit.name)) :
    group_docs gb docs1 = group_docs gb docs2 := by
  have hnodupNames : ∀ k : String,
      (((docs1.filter (fun d =>
        !skipDoc gb d.unit && (group_key gb d.unit == k))).map
        (fun d => d.unit.name)).Nodup) := by
    intro k
    have hpw : (docs1.filter (fun d =>
        !skipDoc gb d.unit && (group_key gb d.unit == k))).Pairwise
        (fun d1 d2 => skipDoc gb d1.unit = false → skipDoc gb d2.unit = false →
          group_key gb d1.unit = group_key gb d2.unit →
          d1.unit.name ≠ d2.unit.name) :=
      List.Pairwise.sublist (List.filter_sublist docs1) hnames
    have hpw2 : (docs1.filter (fun d =>
        !skipDoc gb d.unit && (group_key gb d.unit == k))).Pairwise
        (fun d1 d2 => d1.unit.name ≠ d2.unit.name) := by
      refine hpw.imp_of_mem ?_
      intro a b ha hb hR
      have hpa := List.of_mem_filter ha
      have hpb := List.of_mem_filter hb
      simp only [Bool.and_eq_true, Bool.not_eq_true', beq_iff_eq] at hpa hpb
      exact hR hpa.1 hpb.1 (hpa.2.trans hpb.2.symm)
    exact List.pairwise_map.mpr hpw2
  have hcontent : ∀ k : String,
      isort nameLe (findGroup (groupFold gb docs1) k) =
        isort nameLe (findGroup (groupFold gb docs2) k) := by
    intro k
    rw [findGroup_groupFold, findGroup_groupFold]
    have hpf := hperm.filter (fun d =>
      !skipDoc gb d.unit && (group_key gb d.unit == k))
    refine eq_of_perm_of_sorted_keys (fun d => d.unit.name) _ _
      (((isort_perm nameLe _).trans hpf).trans (isort_perm nameLe _).symm)
      (pairwise_isort_nameLe _) (pairwise_isort_nameLe _) ?_
    have hp2 := (isort_perm nameLe (docs1.filter (fun d =>
      !skipDoc gb d.unit && (group_key gb d.unit == k)))).map
      (fun d => d.unit.name)
    exact hp2.nodup_iff.mpr (hnodupNames k)
  have hk1 : (((groupFold gb docs1).map
      (fun p => (p.1, isort nameLe p.2))).map Prod.fst).Nodup := by
    rw [keys_map_sort]
    exact groupFold_keys_nodup gb docs1
  have hk2 : (((groupFold gb docs2).map
      (fun p => (p.1, isort nameLe p.2))).map Prod.fst).Nodup := by
    rw [keys_map_sort]
    exact groupFold_keys_nodup gb docs2
  have hm1 := hk1.of_map Prod.fst
  have hm2 := hk2.of_map Prod.fst
  have hkeysiff : ∀ k : String,
      (k ∈ (groupFold gb docs1).map Prod.fst ↔
       k ∈ (groupFold gb docs2).map Prod.fst) := by
    intro k
    rw [mem_keys_iff_findGroup _ (groupFold_vals_ne gb docs1) k,
      mem_keys_iff_findGroup _ (groupFold_vals_ne gb docs2) k,
      findGroup_groupFold, findGroup_groupFold]
    have hpf := hperm.filter (fun d =>
      !skipDoc gb d.unit && (group_key gb d.unit == k))
    have hnil : docs1.filter (fun d =>
        !skipDoc gb d.unit && (group_key gb d.unit == k)) = [] ↔
        docs2.filter (fun d =>
        !skipDoc gb d.unit && (group_key gb d.unit == k)) = [] := by
      constructor
      · intro h
        rw [h] at hpf
        exact hpf.nil_eq.symm
      · intro h
        rw [h] at hpf
        exact hpf.symm.nil_eq.symm
    constructor
    · intro h1 h2
      exact h1 (hnil.mpr h2)
    · intro h1 h2
      exact h1 (hnil.mp h2)
  have hmemiff : ∀ q : String × List GenerationResult,
      (q ∈ (groupFold gb docs1).map (fun p => (p.1, isort nameLe p.2)) ↔
       q ∈ (groupFold gb docs2).map (fun p => (p.1, isort nameLe p.2))) := by
    intro q
    obtain ⟨k, v⟩ := q
    rw [pair_mem_iff _ hk1 k v, pair_mem_iff _ hk2 k v, keys_map_sort,
      keys_map_sort, findGroup_map_sort, findGroup_map_sort, hcontent k,
      hkeysiff k]
  have hpermM := (List.perm_ext_iff_of_nodup hm1 hm2).mpr hmemiff
  refine eq_of_perm_of_sorted_keys Prod.fst _ _
    (((isort_perm keyLe _).trans hpermM).trans (isort_perm keyLe _).symm)
    (pairwise_isort_keyLe _) (pairwise_isort_keyLe _) ?_
  have hp2 := (isort_perm keyLe ((groupFold gb docs1).map
    (fun p => (p.1, isort nameLe p.2)))).map Prod.fst
  exact hp2.nodup_iff.mpr hk1

/-- Witness for C9 amended: two distinctly named function results in swapped
input orders group identically under flat mode. -/
theorem c9_witness :
    group_docs "flat" [gdoc (mku "function" "a" "s"), gdoc (mku "function" "b" "s")] =
      group_docs "flat" [gdoc (mku "function" "b" "s"), gdoc (mku "function" "a" "s")] :=
  c9_amended "flat" _ _ (List.Perm.swap _ _ _)
    (List.pairwise_cons.mpr ⟨fun d hd _ _ _ => by
        rw [List.mem_singleton.mp hd]
        decide,
      List.pairwise_cons.mpr ⟨fun d hd => absurd hd (List.not_mem_nil d),
        List.Pairwise.nil⟩⟩)

end AutoDoc
